import Mathlib

/-!
Verification of the kinetic-Monte-Carlo crystal-growth core (`core_func.py`).

The lattice is an `L × L` grid of integer heights with periodic boundary
conditions on both axes.  Heights are modelled as exact integers and the
real-valued rates as exact real numbers (the source computes with floats;
here float arithmetic is idealised as real arithmetic).  Randomness is
injected explicitly: every stochastic function takes the random draws the
source obtains from `random.uniform` / `random.choice` as extra arguments.
Fallible code paths (array-index errors, the `raise` branches, and the
fall-through of the cascading selection chains that leaves the Python local
`subset` unbound) are modelled by `Option`, with `none` for failure.
-/

namespace MonteCarloCrystal

/-- A crystal surface: an `L × L` grid of integer heights, indexed by
`(row, column)`. -/
def Surface (L : ℕ) : Type := Fin L × Fin L → ℤ

/-- Periodic index reduction.  The source computes
`int(i - dims*np.floor(i/dims))`, which is exactly `i mod dims`
(floor division), landing in `[0, dims)`. -/
def wrapIdx (L : ℕ) (hL : 0 < L) (a : ℤ) : Fin L :=
  ⟨(a % (L : ℤ)).toNat, by
    have h0 : (0:ℤ) < (L:ℤ) := by exact_mod_cast hL
    have h1 : a % (L:ℤ) < (L:ℤ) := Int.emod_lt_of_pos a h0
    have h2 : 0 ≤ a % (L:ℤ) := Int.emod_nonneg a (ne_of_gt h0)
    omega⟩

/-- Read the surface at periodically wrapped integer coordinates
(`surface[(a mod L, b mod L)]`).  For the empty `0 × 0` surface there is
nothing to read and the value is irrelevant (no site exists). -/
def periodic {L : ℕ} (s : Surface L) (a b : ℤ) : ℤ :=
  if hL : 0 < L then s (wrapIdx L hL a, wrapIdx L hL b) else 0

/-- `nearest_neighbours` from `core_func.py`: each entry starts at 1 and is
incremented once for each of the four periodic axis neighbours — visited in
the order `(row+1, col+1, row-1, col-1)` — whose height is `≥` the site's
own height (the source tests `surface[i,j] <= surface[neighbour]`). -/
def nearest_neighbours {L : ℕ} (s : Surface L) : Fin L × Fin L → ℕ :=
  fun p =>
    1 + (if s p ≤ periodic s ((p.1 : ℤ) + 1) (p.2 : ℤ) then 1 else 0)
      + (if s p ≤ periodic s (p.1 : ℤ) ((p.2 : ℤ) + 1) then 1 else 0)
      + (if s p ≤ periodic s ((p.1 : ℤ) - 1) (p.2 : ℤ) then 1 else 0)
      + (if s p ≤ periodic s (p.1 : ℤ) ((p.2 : ℤ) - 1) then 1 else 0)

/-- `evaporation_rate(n, T) = np.exp(-n*T)`. -/
noncomputable def evaporation_rate (n : ℕ) (T : ℝ) : ℝ :=
  Real.exp (-(n : ℝ) * T)

/-- `impingement_rate(mu, T) = np.exp(mu) * evaporation_rate(3, T)`. -/
noncomputable def impingement_rate (mu T : ℝ) : ℝ :=
  Real.exp mu * evaporation_rate 3 T

/-- `surface_migration_rate(n, m, T)` from `core_func.py`: saddle energy by
the `if n == 1 or m == 1 / elif n == 2 or m == 2 / else` chain, energy delta
`n - m` when `m <= n` else `0`, result `1/8 * np.exp(-(Esd+DeltaE)*T)`. -/
noncomputable def surface_migration_rate (n m : ℕ) (T : ℝ) : ℝ :=
  (1/8) * Real.exp (-((if n = 1 ∨ m = 1 then (1:ℝ)/2
                       else if n = 2 ∨ m = 2 then 3/2 else 5/2)
                      + (if m ≤ n then (n : ℝ) - (m : ℝ) else 0)) * T)

/-- All lattice sites in row-major order (the order `np.where` reports
matches of a 2-D condition). -/
def sitesList (L : ℕ) : List (Fin L × Fin L) :=
  (List.finRange L).flatMap (fun i => (List.finRange L).map (fun j => (i, j)))

/-- The sites whose neighbour-grid entry equals `k`, in row-major order:
`np.where(neigh == subset)` in `interaction`. -/
def optionsList {L : ℕ} (g : Fin L × Fin L → ℕ) (k : ℕ) :
    List (Fin L × Fin L) :=
  (sitesList L).filter (fun p => g p = k)

/-- Class counts: `counts[k]` is the number of sites whose neighbour-grid
value is `k` (`np.unique(neigh, return_counts=True)` poured into the dict
initialised with keys 1..5; classes that never occur keep count 0). -/
def classCount {L : ℕ} (g : Fin L × Fin L → ℕ) (k : ℕ) : ℕ :=
  (optionsList g k).length

/-- The per-class rate factor
`evaporation_rate(i,T) + impingement_rate(mu,T) + surface_migration_rate(i,i,T)`
shared by the `denom` and `prob` loops of `choose_subset`. -/
noncomputable def classRate (k : ℕ) (T mu : ℝ) : ℝ :=
  evaporation_rate k T + impingement_rate mu T + surface_migration_rate k k T

/-- The normalisation `denom` of `choose_subset`: the total rate mass
`Σ_{i=1..5} counts[i] * (k_minus(i) + k_plus + k_ii)`, with the loop
`for i in range(1,6)` unrolled. -/
noncomputable def denomOf (c : ℕ → ℕ) (T mu : ℝ) : ℝ :=
  (c 1 : ℝ) * classRate 1 T mu + (c 2 : ℝ) * classRate 2 T mu
    + (c 3 : ℝ) * classRate 3 T mu + (c 4 : ℝ) * classRate 4 T mu
    + (c 5 : ℝ) * classRate 5 T mu

/-- `prob[i-1] = counts[i]*(...)/denom` from `choose_subset`.  Note that in
Lean division by zero yields 0; in the source a zero `denom` yields `nan`
entries, and a comparison `rand < nan` is false exactly as `rand < 0` is
false here for `rand ≥ 0`, so the two models make the same branches fire. -/
noncomputable def probOf (c : ℕ → ℕ) (T mu : ℝ) (k : ℕ) : ℝ :=
  (c k : ℝ) * classRate k T mu / denomOf c T mu

/-- The cascading threshold chain of `choose_subset` (lines 185–196 of
`core_func.py`), fed with the random draw `r`.  When no branch fires the
Python local `subset` is left unbound and `return subset` raises; that
fall-through is `none`. -/
noncomputable def subsetChain (c : ℕ → ℕ) (T mu r : ℝ) : Option ℕ :=
  if r < probOf c T mu 1 then some 1
  else if r < probOf c T mu 1 + probOf c T mu 2 then some 2
  else if r < probOf c T mu 1 + probOf c T mu 2 + probOf c T mu 3 then some 3
  else if r < probOf c T mu 1 + probOf c T mu 2 + probOf c T mu 3
              + probOf c T mu 4 then some 4
  else if r < probOf c T mu 1 + probOf c T mu 2 + probOf c T mu 3
              + probOf c T mu 4 + probOf c T mu 5 then some 5
  else none

/-- `choose_subset(surface, T, mu)` with the `uniform(0,1)` draw `r` made
explicit. -/
noncomputable def choose_subset {L : ℕ} (s : Surface L) (T mu r : ℝ) :
    Option ℕ :=
  subsetChain (classCount (nearest_neighbours s)) T mu r

/-- `interaction(surface, T, mu)` with all random draws made explicit:
`rS` is the `uniform(0,1)` draw inside `choose_subset`, `siteIdx` the
`choice(range(...))` site pick, `rE` the event draw, `mig` the
`choice([...])` migration offset, and `rA` the acceptance draw.  Returns
the mutated surface, or `none` on the failure paths (unbound `subset`,
empty site pool). -/
noncomputable def interaction {L : ℕ} (s : Surface L) (T mu : ℝ) (rS : ℝ)
    (siteIdx : ℕ) (rE : ℝ) (mig : ℤ × ℤ) (rA : ℝ) : Option (Surface L) :=
  (choose_subset s T mu rS).bind (fun subset =>
    ((optionsList (nearest_neighbours s) subset)[siteIdx]?).bind (fun loc =>
      if rE < impingement_rate mu T /
          (impingement_rate mu T + evaporation_rate subset T
            + surface_migration_rate subset subset T) then
        some (Function.update s loc (s loc + 1))
      else if rE < (impingement_rate mu T + evaporation_rate subset T) /
          (impingement_rate mu T + evaporation_rate subset T
            + surface_migration_rate subset subset T) then
        some (Function.update s loc (s loc - 1))
      else
        if rA < surface_migration_rate (nearest_neighbours s loc)
            (nearest_neighbours s
              (wrapIdx L loc.1.pos ((loc.1 : ℤ) + mig.1),
               wrapIdx L loc.1.pos ((loc.2 : ℤ) + mig.2))) T then
          some (Function.update
            (Function.update s loc (s loc - 1))
            (wrapIdx L loc.1.pos ((loc.1 : ℤ) + mig.1),
             wrapIdx L loc.1.pos ((loc.2 : ℤ) + mig.2))
            (Function.update s loc (s loc - 1)
              (wrapIdx L loc.1.pos ((loc.1 : ℤ) + mig.1),
               wrapIdx L loc.1.pos ((loc.2 : ℤ) + mig.2)) + 1))
        else some s))

/-- Total surface volume `Σ heights`. -/
def totalVolume {L : ℕ} (s : Surface L) : ℤ :=
  ∑ p : Fin L × Fin L, s p

/-- Numpy scalar index resolution on an axis of length `L`: an index in
`[0, L)` is used as is, an index in `[-L, 0)` wraps to `i + L`, and
anything else is an `IndexError`. -/
def resolveIdx (L : ℕ) (i : ℤ) : Option (Fin L) :=
  if h : 0 ≤ i ∧ i < (L : ℤ) then some ⟨i.toNat, by omega⟩
  else if h' : -(L : ℤ) ≤ i ∧ i < 0 then some ⟨(i + L).toNat, by omega⟩
  else none

/-- Membership of a resolved axis position `c` in the dislocation line
`np.arange(start, fin)` (after numpy index resolution of each entry). -/
def onLine (L : ℕ) (start fin : ℤ) (c : Fin L) : Prop :=
  ∃ k ∈ Finset.Icc start (fin - 1), resolveIdx L k = some c

instance (L : ℕ) (start fin : ℤ) (c : Fin L) :
    Decidable (onLine L start fin c) :=
  decidable_of_iff
    (∃ k ∈ Finset.Icc start (fin - 1), resolveIdx L k = some c) Iff.rfl

/-- Every entry of `np.arange(start, fin)` is a valid index for axis
length `L` (otherwise the fancy assignment raises an `IndexError`). -/
def lineOK (L : ℕ) (start fin : ℤ) : Prop :=
  ∀ k ∈ Finset.Icc start (fin - 1), (resolveIdx L k).isSome = true

instance (L : ℕ) (start fin : ℤ) : Decidable (lineOK L start fin) :=
  decidable_of_iff
    (∀ k ∈ Finset.Icc start (fin - 1), (resolveIdx L k).isSome = true) Iff.rfl

/-- `dislocation_matrices(dims, face, face_loc, boundaries, b)` on an
`L × L` surface.  Mirrors the source's order of effects: first
`np.ones(boundaries[1]-boundaries[0])` raises for a negative length, then
the `face` dispatch; `face = 0` writes the line along row `face_loc` of
`forward_matrix` and row `face_loc - 1` of `backward_matrix` (numpy
resolves negative row indices by wrapping), `face = 1` writes along the
corresponding columns, and any other `face` hits the `raise` branch. -/
def dislocation_matrices (L : ℕ) (face face_loc start fin b : ℤ) :
    Option ((Fin L × Fin L → ℤ) × (Fin L × Fin L → ℤ)) :=
  if fin - start < 0 then none
  else if face = 0 then
    (resolveIdx L face_loc).bind (fun fl =>
      (resolveIdx L (face_loc - 1)).bind (fun fl' =>
        if lineOK L start fin then
          some (fun p => if p.1 = fl ∧ onLine L start fin p.2 then b else 0,
                fun p => if p.1 = fl' ∧ onLine L start fin p.2 then -b else 0)
        else none))
  else if face = 1 then
    (resolveIdx L face_loc).bind (fun fl =>
      (resolveIdx L (face_loc - 1)).bind (fun fl' =>
        if lineOK L start fin then
          some (fun p => if p.2 = fl ∧ onLine L start fin p.1 then b else 0,
                fun p => if p.2 = fl' ∧ onLine L start fin p.1 then -b else 0)
        else none))
  else none

/-- `dislocation_neighbours(surface, face, forward_matrix, backward_matrix)`.
Modelled from the spec for the one name the source leaves undefined: the
body reads `dims`, which is neither a parameter nor defined anywhere in the
module (every call raises `NameError`); following the spec (§4.3) and the
plain classifier, `dims` is taken to be `surface.shape`.  For `face = 0`
the row-major neighbour pair is compared against
`surface + forward_matrix` / `surface + backward_matrix`, for `face = 1`
the column-major pair is, and any other `face` hits the `raise` branch. -/
def dislocation_neighbours {L : ℕ} (s : Surface L) (face : ℤ)
    (fM bM : Surface L) : Option (Fin L × Fin L → ℕ) :=
  if face = 0 then
    some (fun p =>
      1 + (if s p ≤ periodic (fun q => s q + fM q) ((p.1 : ℤ) + 1) (p.2 : ℤ)
           then 1 else 0)
        + (if s p ≤ periodic s (p.1 : ℤ) ((p.2 : ℤ) + 1) then 1 else 0)
        + (if s p ≤ periodic (fun q => s q + bM q) ((p.1 : ℤ) - 1) (p.2 : ℤ)
           then 1 else 0)
        + (if s p ≤ periodic s (p.1 : ℤ) ((p.2 : ℤ) - 1) then 1 else 0))
  else if face = 1 then
    some (fun p =>
      1 + (if s p ≤ periodic s ((p.1 : ℤ) + 1) (p.2 : ℤ) then 1 else 0)
        + (if s p ≤ periodic (fun q => s q + fM q) (p.1 : ℤ) ((p.2 : ℤ) + 1)
           then 1 else 0)
        + (if s p ≤ periodic s ((p.1 : ℤ) - 1) (p.2 : ℤ) then 1 else 0)
        + (if s p ≤ periodic (fun q => s q + bM q) (p.1 : ℤ) ((p.2 : ℤ) - 1)
           then 1 else 0))
  else none

/-- `dis_choose_subset(surface, T, mu, face, f_matrix, b_matrix)` with the
`uniform(0,1)` draw made explicit; identical to `choose_subset` except that
the neighbour grid comes from `dislocation_neighbours`. -/
noncomputable def dis_choose_subset {L : ℕ} (s : Surface L) (T mu : ℝ)
    (face : ℤ) (fM bM : Surface L) (r : ℝ) : Option ℕ :=
  match dislocation_neighbours s face fM bM with
  | none => none
  | some neigh => subsetChain (classCount neigh) T mu r

/-- Cyclic shift of an `L × L` grid by `(dr, dc)`:
`(shift g)[i, j] = g[(i+dr) mod L, (j+dc) mod L]`. -/
def shiftFun {L : ℕ} {α : Type} (g : Fin L × Fin L → α) (dr dc : ℤ) :
    Fin L × Fin L → α :=
  fun p => g (wrapIdx L p.1.pos ((p.1 : ℤ) + dr),
              wrapIdx L p.1.pos ((p.2 : ℤ) + dc))

/-- Cumulative-threshold sweep over an explicit list of classes: walk the
classes in order, accumulating probability mass, and return the first class
whose cumulative threshold exceeds the draw `r`. -/
noncomputable def sweepSel (p : ℕ → ℝ) (r : ℝ) : ℝ → List ℕ → Option ℕ
  | _, [] => none
  | acc, k :: ks =>
      if r < acc + p k then some k else sweepSel p r (acc + p k) ks

/-- Class selection re-derived strictly from the nonzero-count class set,
as the spec's §4.4/§7 guard words it: sweep the cumulative thresholds over
only those classes in 1..5 whose member count is nonzero. -/
noncomputable def chooseSubsetNonzero {L : ℕ} (s : Surface L) (T mu r : ℝ) :
    Option ℕ :=
  sweepSel (probOf (classCount (nearest_neighbours s)) T mu) r 0
    ([1, 2, 3, 4, 5].filter
      (fun k => decide (0 < classCount (nearest_neighbours s) k)))

/-! ### Helper lemmas -/

lemma nn_ge_one {L : ℕ} (s : Surface L) (p : Fin L × Fin L) :
    1 ≤ nearest_neighbours s p := by
  unfold nearest_neighbours
  split_ifs <;> omega

lemma nn_le_five {L : ℕ} (s : Surface L) (p : Fin L × Fin L) :
    nearest_neighbours s p ≤ 5 := by
  unfold nearest_neighbours
  split_ifs <;> omega

/-- Saddle energy as the spec words it: `1/2` if either coordination is 1,
`3/2` if either is 2 (and neither is 1), else `5/2`. -/
noncomputable def EsdSpec (n m : ℕ) : ℝ :=
  if n = 1 ∨ m = 1 then 1/2 else if n = 2 ∨ m = 2 then 3/2 else 5/2

/-- Energy delta as the spec words it: `n - m` when `m ≤ n`, else `0`. -/
noncomputable def DeltaESpec (n m : ℕ) : ℝ :=
  if m ≤ n then (n : ℝ) - (m : ℝ) else 0

/-! ### C1: the plain neighbour classifier -/

/-- C1: for every `L × L` integer-height surface, `nearest_neighbours`
returns a same-shape grid in which each entry equals 1 plus the number of
the site's 4 periodic axis-neighbours — in the order
`(row+1, col+1, row-1, col-1)` — whose height is `≥` the site's own height,
and consequently every entry lies in `[1, 5]`. -/
theorem nearest_neighbours_spec (L : ℕ) (s : Surface L) (p : Fin L × Fin L) :
    nearest_neighbours s p =
      1 + ([periodic s ((p.1 : ℤ) + 1) (p.2 : ℤ),
            periodic s (p.1 : ℤ) ((p.2 : ℤ) + 1),
            periodic s ((p.1 : ℤ) - 1) (p.2 : ℤ),
            periodic s (p.1 : ℤ) ((p.2 : ℤ) - 1)].countP
              (fun h => decide (s p ≤ h)))
    ∧ 1 ≤ nearest_neighbours s p ∧ nearest_neighbours s p ≤ 5 := by
  refine ⟨?_, nn_ge_one s p, nn_le_five s p⟩
  unfold nearest_neighbours
  simp only [List.countP_cons, List.countP_nil, decide_eq_true_eq]
  split_ifs <;> omega

/-! ### C2: the rate model -/

/-- C2: the three rate functions are pure functions of their arguments and
match the closed-form formulas exactly: `evaporation_rate(n,T) = exp(-nT)`;
`impingement_rate(mu,T) = exp(mu) * evaporation_rate(3,T)` for every `mu`
and `T`; and `surface_migration_rate(n,m,T) = (1/8) exp(-(Esd+ΔE) T)` with
the spec's saddle energy and energy delta. -/
theorem rate_model_spec :
    (∀ (n : ℕ) (T : ℝ), evaporation_rate n T = Real.exp (-(n : ℝ) * T))
    ∧ (∀ (mu T : ℝ),
        impingement_rate mu T = Real.exp mu * evaporation_rate 3 T)
    ∧ (∀ (n m : ℕ) (T : ℝ),
        surface_migration_rate n m T =
          1/8 * Real.exp (-(EsdSpec n m + DeltaESpec n m) * T)) :=
  ⟨fun _ _ => rfl, fun _ _ => rfl, fun _ _ _ => rfl⟩

lemma wrapIdx_val (L : ℕ) (hL : 0 < L) (a : ℤ) :
    ((wrapIdx L hL a : Fin L) : ℤ) = a % (L : ℤ) := by
  have h0 : (0:ℤ) < (L:ℤ) := by exact_mod_cast hL
  simp [wrapIdx, Int.toNat_of_nonneg (Int.emod_nonneg a (ne_of_gt h0))]

lemma wrapIdx_wrap_add (L : ℕ) (hL : 0 < L) (a d : ℤ) :
    wrapIdx L hL (((wrapIdx L hL a : Fin L) : ℤ) + d) = wrapIdx L hL (a + d) := by
  rw [wrapIdx_val]
  apply Fin.ext
  show ((a % (L:ℤ) + d) % (L:ℤ)).toNat = ((a + d) % (L:ℤ)).toNat
  rw [Int.emod_add_emod]

lemma wrapIdx_wrap_sub (L : ℕ) (hL : 0 < L) (a d : ℤ) :
    wrapIdx L hL (((wrapIdx L hL a : Fin L) : ℤ) - d) = wrapIdx L hL (a - d) := by
  rw [sub_eq_add_neg, wrapIdx_wrap_add, ← sub_eq_add_neg]

lemma wrapIdx_coe_fin (L : ℕ) (hL : 0 < L) (i : Fin L) :
    wrapIdx L hL ((i : ℤ)) = i := by
  apply Fin.ext
  have h0 : ((i : ℤ)) % (L:ℤ) = (i : ℤ) :=
    Int.emod_eq_of_lt (by positivity) (by exact_mod_cast i.isLt)
  simp [wrapIdx, h0]

lemma periodic_eq {L : ℕ} (hL : 0 < L) (s : Surface L) (a b : ℤ) :
    periodic s a b = s (wrapIdx L hL a, wrapIdx L hL b) := by
  unfold periodic
  rw [dif_pos hL]

/-! ### C9: translation invariance of the neighbour classifier -/

/-- C9: classifying a cyclically shifted surface yields the cyclically
shifted neighbour grid — `nearest_neighbours` commutes with every periodic
shift `(dr, dc)`. -/
theorem nearest_neighbours_shift_invariant (L : ℕ) (s : Surface L)
    (dr dc : ℤ) :
    nearest_neighbours (shiftFun s dr dc) =
      shiftFun (nearest_neighbours s) dr dc := by
  funext p
  have hL : 0 < L := p.1.pos
  simp only [nearest_neighbours, shiftFun, periodic_eq hL,
    wrapIdx_wrap_add, wrapIdx_wrap_sub, wrapIdx_coe_fin]
  ring_nf

/-- `init_crystal(dims)`: the initial surface with every lattice point
occupied at height 1 (`np.ones`). -/
def init_crystal (L : ℕ) : Surface L := fun _ => 1

lemma evaporation_rate_pos (n : ℕ) (T : ℝ) : 0 < evaporation_rate n T :=
  Real.exp_pos _

lemma impingement_rate_pos (mu T : ℝ) : 0 < impingement_rate mu T :=
  mul_pos (Real.exp_pos _) (Real.exp_pos _)

lemma surface_migration_rate_pos (n m : ℕ) (T : ℝ) :
    0 < surface_migration_rate n m T := by
  unfold surface_migration_rate
  positivity

lemma classRate_pos (k : ℕ) (T mu : ℝ) : 0 < classRate k T mu := by
  have h1 := evaporation_rate_pos k T
  have h2 := impingement_rate_pos mu T
  have h3 := surface_migration_rate_pos k k T
  unfold classRate
  linarith

lemma classTerm_nonneg (c : ℕ → ℕ) (T mu : ℝ) (k : ℕ) :
    0 ≤ (c k : ℝ) * classRate k T mu :=
  mul_nonneg (Nat.cast_nonneg _) (classRate_pos k T mu).le

lemma denomOf_pos (c : ℕ → ℕ) (T mu : ℝ) (k0 : ℕ) (hk1 : 1 ≤ k0)
    (hk5 : k0 ≤ 5) (hc : 0 < c k0) : 0 < denomOf c T mu := by
  have n1 := classTerm_nonneg c T mu 1
  have n2 := classTerm_nonneg c T mu 2
  have n3 := classTerm_nonneg c T mu 3
  have n4 := classTerm_nonneg c T mu 4
  have n5 := classTerm_nonneg c T mu 5
  have hpos : 0 < (c k0 : ℝ) * classRate k0 T mu :=
    mul_pos (by exact_mod_cast hc) (classRate_pos k0 T mu)
  unfold denomOf
  interval_cases k0 <;> linarith

lemma probOf_count_zero (c : ℕ → ℕ) (T mu : ℝ) (k : ℕ) (h : c k = 0) :
    probOf c T mu k = 0 := by
  unfold probOf
  rw [h]
  simp

lemma probOf_sum_eq_one (c : ℕ → ℕ) (T mu : ℝ)
    (hd : denomOf c T mu ≠ 0) :
    probOf c T mu 1 + probOf c T mu 2 + probOf c T mu 3 + probOf c T mu 4
      + probOf c T mu 5 = 1 := by
  have h : probOf c T mu 1 + probOf c T mu 2 + probOf c T mu 3
      + probOf c T mu 4 + probOf c T mu 5
      = denomOf c T mu / denomOf c T mu := by
    unfold probOf
    rw [div_add_div_same, div_add_div_same, div_add_div_same,
      div_add_div_same]
    rfl
  rw [h, div_self hd]

lemma mem_sitesList (L : ℕ) (p : Fin L × Fin L) : p ∈ sitesList L := by
  rcases p with ⟨i, j⟩
  exact List.mem_flatMap.mpr
    ⟨i, List.mem_finRange i, List.mem_map.mpr ⟨j, List.mem_finRange j, rfl⟩⟩

lemma classCount_pos_of_site {L : ℕ} (g : Fin L × Fin L → ℕ)
    (p : Fin L × Fin L) : 0 < classCount g (g p) := by
  have hmem : p ∈ optionsList g (g p) :=
    List.mem_filter.mpr ⟨mem_sitesList L p, by simp⟩
  exact List.length_pos.mpr (List.ne_nil_of_mem hmem)

/-- With a zero normalisation mass every `prob` entry is zero (the source's
`nan`), so no branch of the cascading chain fires. -/
lemma subsetChain_none_of_denom_zero (c : ℕ → ℕ) (T mu r : ℝ) (h0 : 0 ≤ r)
    (hd : denomOf c T mu = 0) : subsetChain c T mu r = none := by
  have hp : ∀ k, probOf c T mu k = 0 := fun k => by
    unfold probOf
    rw [hd, div_zero]
  have hnr : ¬r < 0 := not_lt.mpr h0
  unfold subsetChain
  simp only [hp, add_zero]
  rw [if_neg hnr, if_neg hnr, if_neg hnr, if_neg hnr, if_neg hnr]

/-- In every branch the chain picks a class whose count is nonzero: a
zero-count class contributes zero probability mass, so its threshold
interval is empty. -/
lemma subsetChain_mem (c : ℕ → ℕ) (T mu r : ℝ) (h0 : 0 ≤ r) (h1 : r < 1)
    (hd : 0 < denomOf c T mu) :
    ∃ k, subsetChain c T mu r = some k ∧ 0 < c k := by
  have hsum := probOf_sum_eq_one c T mu (ne_of_gt hd)
  unfold subsetChain
  split_ifs with hA hB hC hD hE
  · refine ⟨1, rfl, ?_⟩
    by_contra hc
    have h := probOf_count_zero c T mu 1 (by omega)
    rw [h] at hA
    linarith
  · refine ⟨2, rfl, ?_⟩
    by_contra hc
    have h := probOf_count_zero c T mu 2 (by omega)
    rw [h] at hB
    push_neg at hA
    linarith
  · refine ⟨3, rfl, ?_⟩
    by_contra hc
    have h := probOf_count_zero c T mu 3 (by omega)
    rw [h] at hC
    push_neg at hB
    linarith
  · refine ⟨4, rfl, ?_⟩
    by_contra hc
    have h := probOf_count_zero c T mu 4 (by omega)
    rw [h] at hD
    push_neg at hC
    linarith
  · refine ⟨5, rfl, ?_⟩
    by_contra hc
    have h := probOf_count_zero c T mu 5 (by omega)
    rw [h] at hE
    push_neg at hD
    linarith
  · rw [hsum] at hE
    exact (hE h1).elim

/-- The source's hardcoded five-way chain is the cumulative sweep over the
full class list `[1,2,3,4,5]`. -/
lemma subsetChain_eq_sweep (c : ℕ → ℕ) (T mu r : ℝ) :
    subsetChain c T mu r =
      sweepSel (probOf c T mu) r 0 [1, 2, 3, 4, 5] := by
  simp [subsetChain, sweepSel, zero_add]

/-- Dropping zero-probability classes from a cumulative sweep does not
change its outcome, provided the draw has not already been passed. -/
lemma sweepSel_filter (p : ℕ → ℝ) (c : ℕ → ℕ) (r : ℝ)
    (hp : ∀ k, c k = 0 → p k = 0) :
    ∀ (l : List ℕ) (acc : ℝ), acc ≤ r →
      sweepSel p r acc (l.filter (fun k => decide (0 < c k)))
        = sweepSel p r acc l := by
  intro l
  induction l with
  | nil => intro acc _; rfl
  | cons k ks ih =>
    intro acc hacc
    by_cases hck : 0 < c k
    · rw [List.filter_cons_of_pos (by simpa using hck)]
      simp only [sweepSel]
      split_ifs with hr
      · rfl
      · exact ih (acc + p k) (not_lt.mp hr)
    · have hpk : p k = 0 := hp k (by omega)
      rw [List.filter_cons_of_neg (by simpa using hck)]
      conv_rhs => rw [sweepSel]
      rw [hpk, add_zero, if_neg (not_lt.mpr hacc)]
      exact ih acc hacc

/-- The total class rate mass seen by `dis_choose_subset`: the `denom` it
computes from the dislocation-aware neighbour grid (0 when the grid
computation itself already fails). -/
noncomputable def disDenom {L : ℕ} (s : Surface L) (T mu : ℝ) (face : ℤ)
    (fM bM : Surface L) : ℝ :=
  match dislocation_neighbours s face fM bM with
  | none => 0
  | some g => denomOf (classCount g) T mu

/-! ### C5: zero total rate mass makes class selection fail -/

/-- C5: if the total class rate mass `Σ R` over classes 1..5 is zero, class
selection fails — `choose_subset` (and `dis_choose_subset`) returns no
class at all (the source's cascading chain falls through, leaving `subset`
unbound, so the call raises instead of silently picking a class). -/
theorem choose_subset_domain_error (L : ℕ) (s : Surface L) (T mu r : ℝ)
    (face : ℤ) (fM bM : Surface L) (h0 : 0 ≤ r) :
    (denomOf (classCount (nearest_neighbours s)) T mu = 0 →
        choose_subset s T mu r = none)
    ∧ (disDenom s T mu face fM bM = 0 →
        dis_choose_subset s T mu face fM bM r = none) := by
  constructor
  · intro hd
    exact subsetChain_none_of_denom_zero _ T mu r h0 hd
  · intro hd
    cases hm : dislocation_neighbours s face fM bM with
    | none =>
      unfold dis_choose_subset
      rw [hm]
    | some g =>
      unfold disDenom at hd
      rw [hm] at hd
      unfold dis_choose_subset
      rw [hm]
      exact subsetChain_none_of_denom_zero _ T mu r h0 hd

/-- Witness for C5: on the degenerate empty (0×0) lattice every class count
is zero, the rate mass is zero, and both selectors fail. -/
theorem choose_subset_domain_error_witness :
    denomOf (classCount (nearest_neighbours (init_crystal 0))) 1 0 = 0
    ∧ disDenom (init_crystal 0) 1 0 0 (init_crystal 0) (init_crystal 0) = 0
    ∧ choose_subset (init_crystal 0) 1 0 (1/2) = none
    ∧ dis_choose_subset (init_crystal 0) 1 0 0 (init_crystal 0)
        (init_crystal 0) (1/2) = none := by
  have h0 : (0:ℝ) ≤ 1/2 := le_of_lt one_half_pos
  have hd : denomOf (classCount (nearest_neighbours (init_crystal 0))) 1 0
      = 0 := by
    simp [denomOf, classCount, optionsList, sitesList]
  have hdd : disDenom (init_crystal 0) 1 0 0 (init_crystal 0)
      (init_crystal 0) = 0 := by
    have hm : dislocation_neighbours (init_crystal 0) 0 (init_crystal 0)
        (init_crystal 0)
        = some (fun p =>
            1 + (if init_crystal 0 p ≤
                  periodic (fun q => init_crystal 0 q + init_crystal 0 q)
                    ((p.1 : ℤ) + 1) (p.2 : ℤ) then 1 else 0)
              + (if init_crystal 0 p ≤
                  periodic (init_crystal 0) (p.1 : ℤ) ((p.2 : ℤ) + 1)
                 then 1 else 0)
              + (if init_crystal 0 p ≤
                  periodic (fun q => init_crystal 0 q + init_crystal 0 q)
                    ((p.1 : ℤ) - 1) (p.2 : ℤ) then 1 else 0)
              + (if init_crystal 0 p ≤
                  periodic (init_crystal 0) (p.1 : ℤ) ((p.2 : ℤ) - 1)
                 then 1 else 0)) := rfl
    unfold disDenom
    rw [hm]
    simp [denomOf, classCount, optionsList, sitesList]
  exact ⟨hd, hdd,
    (choose_subset_domain_error 0 (init_crystal 0) 1 0 (1/2) 0
      (init_crystal 0) (init_crystal 0) h0).1 hd,
    (choose_subset_domain_error 0 (init_crystal 0) 1 0 (1/2) 0
      (init_crystal 0) (init_crystal 0) h0).2 hdd⟩

/-! ### C6: the selected class always has member sites -/

/-- C6: class selection never returns a class with zero member sites: the
class it picks coincides with the one picked by the sweep re-derived
strictly from the nonzero-count class set, so for every surface the site
pool `np.where(neigh == subset)` that `interaction` draws from is
nonempty. -/
theorem choose_subset_selected_class_nonempty (L : ℕ) (hL : 0 < L)
    (s : Surface L) (T mu r : ℝ) (h0 : 0 ≤ r) (h1 : r < 1) :
    ∃ k, choose_subset s T mu r = some k
      ∧ choose_subset s T mu r = chooseSubsetNonzero s T mu r
      ∧ optionsList (nearest_neighbours s) k ≠ [] := by
  set c := classCount (nearest_neighbours s) with hcdef
  have hck : 0 < c (nearest_neighbours s (⟨0, hL⟩, ⟨0, hL⟩)) :=
    classCount_pos_of_site (nearest_neighbours s) (⟨0, hL⟩, ⟨0, hL⟩)
  have hd : 0 < denomOf c T mu :=
    denomOf_pos c T mu _ (nn_ge_one s _) (nn_le_five s _) hck
  obtain ⟨k, hk, hkc⟩ := subsetChain_mem c T mu r h0 h1 hd
  have heq : choose_subset s T mu r = chooseSubsetNonzero s T mu r := by
    show subsetChain c T mu r = chooseSubsetNonzero s T mu r
    rw [subsetChain_eq_sweep,
      ← sweepSel_filter (probOf c T mu) c r
        (fun k' hk' => probOf_count_zero c T mu k' hk') [1, 2, 3, 4, 5] 0 h0]
    rfl
  exact ⟨k, hk, heq, List.length_pos.mp hkc⟩

/-- Witness for C6 on the 1×1 all-ones lattice. -/
theorem choose_subset_selected_class_nonempty_witness :
    ∃ k, choose_subset (init_crystal 1) 1 0 0 = some k
      ∧ choose_subset (init_crystal 1) 1 0 0
          = chooseSubsetNonzero (init_crystal 1) 1 0 0
      ∧ optionsList (nearest_neighbours (init_crystal 1)) k ≠ [] :=
  choose_subset_selected_class_nonempty 1 one_pos (init_crystal 1) 1 0 0
    (le_refl 0) zero_lt_one

lemma totalVolume_update {L : ℕ} (s : Surface L) (q : Fin L × Fin L)
    (v : ℤ) :
    totalVolume (Function.update s q v) = totalVolume s - s q + v := by
  unfold totalVolume
  rw [Finset.sum_update_of_mem (Finset.mem_univ q)]
  rw [Finset.sum_sdiff_eq_sub (Finset.singleton_subset_iff.mpr
    (Finset.mem_univ q))]
  rw [Finset.sum_singleton]
  ring

/-! ### C3: one event per `interaction` call -/

/-- C3: each `interaction` call applies at most one event to the surface:
height `+1` at the chosen site (deposit), height `-1` there (evaporate),
height `-1` at the source and `+1` at the periodically wrapped migration
target (accepted migration), or no change (rejected migration).  All sites
other than the chosen site and the migration target are unchanged, and the
total surface volume changes by exactly `+1`, `-1`, or `0`. -/
theorem interaction_single_event (L : ℕ) (s : Surface L) (T mu rS : ℝ)
    (siteIdx : ℕ) (rE : ℝ) (mig : ℤ × ℤ) (rA : ℝ) (s' : Surface L)
    (h : interaction s T mu rS siteIdx rE mig rA = some s') :
    ∃ loc tgt : Fin L × Fin L,
      (∀ p, p ≠ loc → p ≠ tgt → s' p = s p)
      ∧ (s' = Function.update s loc (s loc + 1)
         ∨ s' = Function.update s loc (s loc - 1)
         ∨ s' = Function.update (Function.update s loc (s loc - 1)) tgt
             (Function.update s loc (s loc - 1) tgt + 1)
         ∨ s' = s)
      ∧ (totalVolume s' - totalVolume s = 1
         ∨ totalVolume s' - totalVolume s = -1
         ∨ totalVolume s' - totalVolume s = 0) := by
  unfold interaction at h
  cases hcs : choose_subset s T mu rS with
  | none => rw [hcs] at h; simp at h
  | some subset =>
    rw [hcs] at h
    simp only [Option.some_bind] at h
    cases hlo : (optionsList (nearest_neighbours s) subset)[siteIdx]? with
    | none => rw [hlo] at h; simp at h
    | some loc =>
      rw [hlo] at h
      simp only [Option.some_bind] at h
      split_ifs at h with h1 h2 h3
      · injection h with h'
        refine ⟨loc, loc, ?_, Or.inl h'.symm, ?_⟩
        · intro p hp _
          rw [← h', Function.update_noteq hp]
        · left
          rw [← h', totalVolume_update]
          ring
      · injection h with h'
        refine ⟨loc, loc, ?_, Or.inr (Or.inl h'.symm), ?_⟩
        · intro p hp _
          rw [← h', Function.update_noteq hp]
        · right; left
          rw [← h', totalVolume_update]
          ring
      · injection h with h'
        refine ⟨loc,
          (wrapIdx L loc.1.pos ((loc.1 : ℤ) + mig.1),
           wrapIdx L loc.1.pos ((loc.2 : ℤ) + mig.2)),
          ?_, Or.inr (Or.inr (Or.inl h'.symm)), ?_⟩
        · intro p hp hpt
          rw [← h', Function.update_noteq hpt, Function.update_noteq hp]
        · right; right
          rw [← h', totalVolume_update, totalVolume_update]
          ring
      · injection h with h'
        refine ⟨loc, loc, ?_, Or.inr (Or.inr (Or.inr h'.symm)), ?_⟩
        · intro p _ _
          rw [← h']
        · right; right
          rw [← h']
          ring

/-- A concrete 2×2 surface with a single strict peak at `(0,0)` (its class
is 1, every other site's class is 5). -/
def peakSurface : Surface 2 := fun p => if p = (0, 0) then 5 else 1

lemma peak_count_one : classCount (nearest_neighbours peakSurface) 1 = 1 := by
  decide

lemma peak_prob_one_pos :
    0 < probOf (classCount (nearest_neighbours peakSurface)) 1 0 1 := by
  have hd := denomOf_pos (classCount (nearest_neighbours peakSurface)) 1 0 1
    le_rfl (by omega) (by rw [peak_count_one]; exact one_pos)
  unfold probOf
  apply div_pos _ hd
  rw [peak_count_one]
  simp only [Nat.cast_one, one_mul]
  exact classRate_pos 1 1 0

lemma peak_choose : choose_subset peakSurface 1 0 0 = some 1 := by
  unfold choose_subset subsetChain
  rw [if_pos peak_prob_one_pos]

lemma peak_site :
    (optionsList (nearest_neighbours peakSurface) 1)[(0:ℕ)]? =
      some (0, 0) := by
  decide

lemma peak_deposit_cond :
    (0:ℝ) < impingement_rate 0 1 /
      (impingement_rate 0 1 + evaporation_rate 1 1
        + surface_migration_rate 1 1 1) := by
  have h1 := impingement_rate_pos 0 1
  have h2 := evaporation_rate_pos 1 1
  have h3 := surface_migration_rate_pos 1 1 1
  exact div_pos h1 (by linarith)

lemma peak_interaction :
    interaction peakSurface 1 0 0 0 0 (1, 1) 0 =
      some (Function.update peakSurface (0, 0) (peakSurface (0, 0) + 1)) := by
  unfold interaction
  rw [peak_choose]
  simp only [Option.some_bind]
  rw [peak_site]
  simp only [Option.some_bind]
  rw [if_pos peak_deposit_cond]

/-- Witness for C3: a concrete deposit event on the 2×2 peak surface. -/
theorem interaction_single_event_witness :
    ∃ loc tgt : Fin 2 × Fin 2,
      (∀ p, p ≠ loc → p ≠ tgt →
        Function.update peakSurface (0, 0) (peakSurface (0, 0) + 1) p
          = peakSurface p)
      ∧ (Function.update peakSurface (0, 0) (peakSurface (0, 0) + 1)
           = Function.update peakSurface loc (peakSurface loc + 1)
         ∨ Function.update peakSurface (0, 0) (peakSurface (0, 0) + 1)
           = Function.update peakSurface loc (peakSurface loc - 1)
         ∨ Function.update peakSurface (0, 0) (peakSurface (0, 0) + 1)
           = Function.update
               (Function.update peakSurface loc (peakSurface loc - 1)) tgt
               (Function.update peakSurface loc (peakSurface loc - 1) tgt
                 + 1)
         ∨ Function.update peakSurface (0, 0) (peakSurface (0, 0) + 1)
           = peakSurface)
      ∧ (totalVolume
            (Function.update peakSurface (0, 0) (peakSurface (0, 0) + 1))
            - totalVolume peakSurface = 1
         ∨ totalVolume
            (Function.update peakSurface (0, 0) (peakSurface (0, 0) + 1))
            - totalVolume peakSurface = -1
         ∨ totalVolume
            (Function.update peakSurface (0, 0) (peakSurface (0, 0) + 1))
            - totalVolume peakSurface = 0) :=
  interaction_single_event 2 peakSurface 1 0 0 0 0 (1, 1) 0
    (Function.update peakSurface (0, 0) (peakSurface (0, 0) + 1))
    peak_interaction

lemma resolveIdx_nonneg (L : ℕ) (i : ℤ) (h : 0 ≤ i) (h' : i < (L : ℤ)) :
    resolveIdx L i = some ⟨i.toNat, by omega⟩ := by
  unfold resolveIdx
  rw [dif_pos ⟨h, h'⟩]

lemma resolveIdx_neg (L : ℕ) (i : ℤ) (h : -(L : ℤ) ≤ i) (h' : i < 0) :
    resolveIdx L i = some ⟨(i + L).toNat, by omega⟩ := by
  unfold resolveIdx
  rw [dif_neg (by omega), dif_pos ⟨h, h'⟩]

lemma onLine_iff (L : ℕ) (start fin : ℤ) (h3 : 0 ≤ start) (h5 : fin ≤ L)
    (c : Fin L) :
    onLine L start fin c ↔ start ≤ (c : ℤ) ∧ (c : ℤ) < fin := by
  constructor
  · rintro ⟨k, hk, hres⟩
    rw [Finset.mem_Icc] at hk
    rw [resolveIdx_nonneg L k (by omega) (by omega)] at hres
    injection hres with hres
    have : (c : ℤ) = k := by
      rw [← hres]
      simp [Int.toNat_of_nonneg (show 0 ≤ k by omega)]
    omega
  · rintro ⟨ha, hb⟩
    refine ⟨(c : ℤ), Finset.mem_Icc.mpr ⟨ha, by omega⟩, ?_⟩
    rw [resolveIdx_nonneg L (c : ℤ) (by positivity) (by exact_mod_cast c.isLt)]
    exact congrArg some (Fin.ext (by simp))

lemma lineOK_of_bounds (L : ℕ) (start fin : ℤ) (h3 : 0 ≤ start)
    (h5 : fin ≤ L) : lineOK L start fin := by
  intro k hk
  rw [Finset.mem_Icc] at hk
  rw [resolveIdx_nonneg L k (by omega) (by omega)]
  rfl

/-! ### C8: the shape of the dislocation matrices -/

/-- C8: for `face = 0` the matrices are zero everywhere except
`forward[face_loc, i] = b` and `backward[face_loc-1, i] = -b` for
`i ∈ [start, fin)`, and for `face = 1` the roles of rows and columns are
exchanged. -/
theorem dislocation_matrices_line (L : ℕ) (face_loc start fin b : ℤ)
    (h1 : 1 ≤ face_loc) (h2 : face_loc < (L : ℤ)) (h3 : 0 ≤ start)
    (h4 : start ≤ fin) (h5 : fin ≤ (L : ℤ)) :
    (dislocation_matrices L 0 face_loc start fin b
      = some (fun p => if (p.1 : ℤ) = face_loc
                ∧ start ≤ (p.2 : ℤ) ∧ (p.2 : ℤ) < fin then b else 0,
              fun p => if (p.1 : ℤ) = face_loc - 1
                ∧ start ≤ (p.2 : ℤ) ∧ (p.2 : ℤ) < fin then -b else 0))
    ∧ (dislocation_matrices L 1 face_loc start fin b
      = some (fun p => if (p.2 : ℤ) = face_loc
                ∧ start ≤ (p.1 : ℤ) ∧ (p.1 : ℤ) < fin then b else 0,
              fun p => if (p.2 : ℤ) = face_loc - 1
                ∧ start ≤ (p.1 : ℤ) ∧ (p.1 : ℤ) < fin then -b else 0)) := by
  have hres1 := resolveIdx_nonneg L face_loc (by omega) h2
  have hres2 := resolveIdx_nonneg L (face_loc - 1) (by omega) (by omega)
  have hOK := lineOK_of_bounds L start fin h3 h5
  have hcond1 : ∀ p : Fin L × Fin L,
      (p.1 = (⟨face_loc.toNat, by omega⟩ : Fin L) ∧ onLine L start fin p.2)
        ↔ ((p.1 : ℤ) = face_loc ∧ start ≤ (p.2 : ℤ) ∧ (p.2 : ℤ) < fin) := by
    intro p
    rw [onLine_iff L start fin h3 h5, Fin.ext_iff, and_congr_left_iff]
    intro _
    simp only [Fin.val_mk]
    omega
  have hcond2 : ∀ p : Fin L × Fin L,
      (p.1 = (⟨(face_loc - 1).toNat, by omega⟩ : Fin L)
          ∧ onLine L start fin p.2)
        ↔ ((p.1 : ℤ) = face_loc - 1
            ∧ start ≤ (p.2 : ℤ) ∧ (p.2 : ℤ) < fin) := by
    intro p
    rw [onLine_iff L start fin h3 h5, Fin.ext_iff, and_congr_left_iff]
    intro _
    simp only [Fin.val_mk]
    omega
  have hcond1' : ∀ p : Fin L × Fin L,
      (p.2 = (⟨face_loc.toNat, by omega⟩ : Fin L) ∧ onLine L start fin p.1)
        ↔ ((p.2 : ℤ) = face_loc ∧ start ≤ (p.1 : ℤ) ∧ (p.1 : ℤ) < fin) := by
    intro p
    rw [onLine_iff L start fin h3 h5, Fin.ext_iff, and_congr_left_iff]
    intro _
    simp only [Fin.val_mk]
    omega
  have hcond2' : ∀ p : Fin L × Fin L,
      (p.2 = (⟨(face_loc - 1).toNat, by omega⟩ : Fin L)
          ∧ onLine L start fin p.1)
        ↔ ((p.2 : ℤ) = face_loc - 1
            ∧ start ≤ (p.1 : ℤ) ∧ (p.1 : ℤ) < fin) := by
    intro p
    rw [onLine_iff L start fin h3 h5, Fin.ext_iff, and_congr_left_iff]
    intro _
    simp only [Fin.val_mk]
    omega
  constructor
  · unfold dislocation_matrices
    rw [if_neg (by omega), if_pos rfl, hres1]
    simp only [Option.some_bind]
    rw [hres2]
    simp only [Option.some_bind]
    rw [if_pos hOK]
    congr 1
    refine Prod.ext ?_ ?_ <;> funext p
    · exact if_congr (hcond1 p) rfl rfl
    · exact if_congr (hcond2 p) rfl rfl
  · unfold dislocation_matrices
    rw [if_neg (by omega), if_neg (by omega), if_pos rfl, hres1]
    simp only [Option.some_bind]
    rw [hres2]
    simp only [Option.some_bind]
    rw [if_pos hOK]
    congr 1
    refine Prod.ext ?_ ?_ <;> funext p
    · exact if_congr (hcond1' p) rfl rfl
    · exact if_congr (hcond2' p) rfl rfl

/-- Witness for C8: the spec's concrete 5×5 example
(`face=0, face_loc=2, boundaries=(1,4), b=1`), together with the
column-major `face=1` counterpart. -/
theorem dislocation_matrices_line_witness :
    (dislocation_matrices 5 0 2 1 4 1
      = some (fun p => if (p.1 : ℤ) = 2
                ∧ 1 ≤ (p.2 : ℤ) ∧ (p.2 : ℤ) < 4 then 1 else 0,
              fun p => if (p.1 : ℤ) = 2 - 1
                ∧ 1 ≤ (p.2 : ℤ) ∧ (p.2 : ℤ) < 4 then -1 else 0))
    ∧ (dislocation_matrices 5 1 2 1 4 1
      = some (fun p => if (p.2 : ℤ) = 2
                ∧ 1 ≤ (p.1 : ℤ) ∧ (p.1 : ℤ) < 4 then 1 else 0,
              fun p => if (p.2 : ℤ) = 2 - 1
                ∧ 1 ≤ (p.1 : ℤ) ∧ (p.1 : ℤ) < 4 then -1 else 0)) :=
  dislocation_matrices_line 5 2 1 4 1 (by decide) (by decide) (by decide)
    (by decide) (by decide)

/-! ### C10: `face_loc = 0` wraps the backward line to the far edge -/

/-- C10: with `face ∈ {0,1}` and `face_loc = 0` the backward offsets are
written at index `face_loc - 1 = -1`, which numpy resolves to the last row
(`face = 0`) or last column (`face = 1`): the call succeeds and the
backward half of the step wraps periodically to the opposite edge instead
of being rejected as out of range. -/
theorem dislocation_matrices_negative_wrap (L : ℕ) (start fin b : ℤ)
    (hL : 0 < L) (h3 : 0 ≤ start) (h4 : start ≤ fin) (h5 : fin ≤ (L : ℤ)) :
    (∃ F B, dislocation_matrices L 0 0 start fin b = some (F, B)
       ∧ ∀ p : Fin L × Fin L,
           B p = if (p.1 : ℤ) = (L : ℤ) - 1
                    ∧ start ≤ (p.2 : ℤ) ∧ (p.2 : ℤ) < fin then -b else 0)
    ∧ (∃ F B, dislocation_matrices L 1 0 start fin b = some (F, B)
       ∧ ∀ p : Fin L × Fin L,
           B p = if (p.2 : ℤ) = (L : ℤ) - 1
                    ∧ start ≤ (p.1 : ℤ) ∧ (p.1 : ℤ) < fin then -b else 0) := by
  have hLz : (0:ℤ) < (L:ℤ) := by exact_mod_cast hL
  have hres1 := resolveIdx_nonneg L 0 (le_refl 0) hLz
  have hres2 := resolveIdx_neg L (0 - 1) (by omega) (by omega)
  have hOK := lineOK_of_bounds L start fin h3 h5
  constructor
  · refine ⟨(fun p => if p.1 = (⟨Int.toNat 0, by omega⟩ : Fin L)
                ∧ onLine L start fin p.2 then b else 0),
            (fun p => if p.1 = (⟨((0:ℤ) - 1 + (L:ℤ)).toNat, by omega⟩ : Fin L)
                ∧ onLine L start fin p.2 then -b else 0), ?_, ?_⟩
    · unfold dislocation_matrices
      rw [if_neg (by omega), if_pos rfl, hres1]
      simp only [Option.some_bind]
      rw [hres2]
      simp only [Option.some_bind]
      rw [if_pos hOK]
    · intro p
      refine if_congr ?_ rfl rfl
      rw [onLine_iff L start fin h3 h5, Fin.ext_iff, and_congr_left_iff]
      intro _
      simp only [Fin.val_mk]
      omega
  · refine ⟨(fun p => if p.2 = (⟨Int.toNat 0, by omega⟩ : Fin L)
                ∧ onLine L start fin p.1 then b else 0),
            (fun p => if p.2 = (⟨((0:ℤ) - 1 + (L:ℤ)).toNat, by omega⟩ : Fin L)
                ∧ onLine L start fin p.1 then -b else 0), ?_, ?_⟩
    · unfold dislocation_matrices
      rw [if_neg (by omega), if_neg (by omega), if_pos rfl, hres1]
      simp only [Option.some_bind]
      rw [hres2]
      simp only [Option.some_bind]
      rw [if_pos hOK]
    · intro p
      refine if_congr ?_ rfl rfl
      rw [onLine_iff L start fin h3 h5, Fin.ext_iff, and_congr_left_iff]
      intro _
      simp only [Fin.val_mk]
      omega

/-- Witness for C10 on a 5×5 lattice with the line `[1, 4)` and `b = 1`. -/
theorem dislocation_matrices_negative_wrap_witness :
    (∃ F B, dislocation_matrices 5 0 0 1 4 1 = some (F, B)
       ∧ ∀ p : Fin 5 × Fin 5,
           B p = if (p.1 : ℤ) = (5 : ℤ) - 1
                    ∧ 1 ≤ (p.2 : ℤ) ∧ (p.2 : ℤ) < 4 then -1 else 0)
    ∧ (∃ F B, dislocation_matrices 5 1 0 1 4 1 = some (F, B)
       ∧ ∀ p : Fin 5 × Fin 5,
           B p = if (p.2 : ℤ) = (5 : ℤ) - 1
                    ∧ 1 ≤ (p.1 : ℤ) ∧ (p.1 : ℤ) < 4 then -1 else 0) :=
  dislocation_matrices_negative_wrap 5 1 4 1 (by decide) (by decide)
    (by decide) (by decide)

/-! ### C7: validation behaviour of `dislocation_matrices` -/

/-- C7 (amended): `dislocation_matrices` fails before producing any output
when `face ∉ {0,1}` and when `start > end` (the negative-length
`np.ones(end-start)` raises); but for an *empty* line with `start = end`
it does not fail — it silently returns the all-zero matrices. -/
theorem dislocation_matrices_fail_fast (L : ℕ)
    (face face_loc start fin b : ℤ) :
    (fin < start → dislocation_matrices L face face_loc start fin b = none)
    ∧ (face ≠ 0 → face ≠ 1 →
        dislocation_matrices L face face_loc start fin b = none)
    ∧ (∀ fl fl', face = 0 → start = fin →
        resolveIdx L face_loc = some fl →
        resolveIdx L (face_loc - 1) = some fl' →
        dislocation_matrices L face face_loc start fin b
          = some (fun _ => 0, fun _ => 0)) := by
  refine ⟨?_, ?_, ?_⟩
  · intro h
    unfold dislocation_matrices
    rw [if_pos (by omega)]
  · intro hf0 hf1
    by_cases hneg : fin - start < 0
    · unfold dislocation_matrices
      rw [if_pos hneg]
    · unfold dislocation_matrices
      rw [if_neg hneg, if_neg hf0, if_neg hf1]
  · intro fl fl' hface hse hfl hfl'
    subst hface
    subst hse
    have hempty : Finset.Icc start (start - 1) = (∅ : Finset ℤ) :=
      Finset.Icc_eq_empty (by omega)
    have hnol : ∀ c : Fin L, ¬ onLine L start start c := by
      rintro c ⟨k, hk, _⟩
      rw [hempty] at hk
      exact absurd hk (Finset.not_mem_empty k)
    have hOK : lineOK L start start := by
      intro k hk
      rw [hempty] at hk
      exact absurd hk (Finset.not_mem_empty k)
    unfold dislocation_matrices
    rw [if_neg (by omega), if_pos rfl, hfl]
    simp only [Option.some_bind]
    rw [hfl']
    simp only [Option.some_bind]
    rw [if_pos hOK]
    refine congrArg some (Prod.ext ?_ ?_) <;> funext p
    · exact if_neg (fun hc => hnol p.2 hc.2)
    · exact if_neg (fun hc => hnol p.2 hc.2)

/-- Counterexample for C7 as stated: with the empty line `start = end = 1`
(`face = 0`, `face_loc = 2`, `b = 1` on a 5×5 lattice) the call does not
fail — it returns the all-zero matrices. -/
theorem dislocation_matrices_empty_line_returns :
    dislocation_matrices 5 0 2 1 1 1 = some (fun _ => 0, fun _ => 0) := by
  have hempty : Finset.Icc (1:ℤ) (1 - 1) = ∅ := Finset.Icc_eq_empty (by omega)
  have hnol : ∀ c : Fin 5, ¬ onLine 5 1 1 c := by
    rintro c ⟨k, hk, _⟩
    rw [hempty] at hk
    exact absurd hk (Finset.not_mem_empty k)
  have hOK : lineOK 5 1 1 := by
    intro k hk
    rw [hempty] at hk
    exact absurd hk (Finset.not_mem_empty k)
  unfold dislocation_matrices
  rw [if_neg (by omega), if_pos rfl,
    resolveIdx_nonneg 5 2 (by omega) (by omega)]
  simp only [Option.some_bind]
  rw [resolveIdx_nonneg 5 (2 - 1) (by omega) (by omega)]
  simp only [Option.some_bind]
  rw [if_pos hOK]
  refine congrArg some (Prod.ext ?_ ?_) <;> funext p
  · exact if_neg (fun hc => hnol p.2 hc.2)
  · exact if_neg (fun hc => hnol p.2 hc.2)

/-- Witness for C7 (amended): a negative-length line fails, a bad face
fails, and an empty line on a 4×4 lattice silently returns zeros. -/
theorem dislocation_matrices_fail_fast_witness :
    dislocation_matrices 5 0 2 3 2 1 = none
    ∧ dislocation_matrices 5 7 2 1 4 1 = none
    ∧ dislocation_matrices 4 0 1 2 2 1 = some (fun _ => 0, fun _ => 0) :=
  ⟨(dislocation_matrices_fail_fast 5 0 2 3 2 1).1 (by decide),
   (dislocation_matrices_fail_fast 5 7 2 1 4 1).2.1 (by decide) (by decide),
   (dislocation_matrices_fail_fast 4 0 1 2 2 1).2.2 1 0 rfl rfl
     (by decide) (by decide)⟩

lemma periodic_add {L : ℕ} (s t : Surface L) (a b : ℤ) :
    periodic (fun q => s q + t q) a b = periodic s a b + periodic t a b := by
  unfold periodic
  split <;> simp

/-! ### C4: the dislocation-aware neighbour classifier -/

/-- C4: with the source's missing `dims = surface.shape` restored (the
shipped code raises `NameError` on every call, see
`dislocation_neighbours`'s doc comment), the classifier compares — for the
two directions perpendicular to the face axis — the site's height against
the neighbour's height *plus* the forward (resp. backward) offset-matrix
entry at the neighbour's index, uses the plain comparison for the other two
directions, routes the offset through the row-major pair for `face = 0` and
the column-major pair for `face = 1`, and fails for `face ∉ {0,1}`. -/
theorem dislocation_neighbours_spec (L : ℕ) (s : Surface L) (face : ℤ)
    (fM bM : Surface L) :
    (face = 0 → dislocation_neighbours s face fM bM = some (fun p =>
        1 + List.countP (fun h => decide (s p ≤ h))
              [periodic s ((p.1 : ℤ) + 1) (p.2 : ℤ)
                 + periodic fM ((p.1 : ℤ) + 1) (p.2 : ℤ),
               periodic s (p.1 : ℤ) ((p.2 : ℤ) + 1),
               periodic s ((p.1 : ℤ) - 1) (p.2 : ℤ)
                 + periodic bM ((p.1 : ℤ) - 1) (p.2 : ℤ),
               periodic s (p.1 : ℤ) ((p.2 : ℤ) - 1)]))
    ∧ (face = 1 → dislocation_neighbours s face fM bM = some (fun p =>
        1 + List.countP (fun h => decide (s p ≤ h))
              [periodic s ((p.1 : ℤ) + 1) (p.2 : ℤ),
               periodic s (p.1 : ℤ) ((p.2 : ℤ) + 1)
                 + periodic fM (p.1 : ℤ) ((p.2 : ℤ) + 1),
               periodic s ((p.1 : ℤ) - 1) (p.2 : ℤ),
               periodic s (p.1 : ℤ) ((p.2 : ℤ) - 1)
                 + periodic bM (p.1 : ℤ) ((p.2 : ℤ) - 1)]))
    ∧ (face ≠ 0 → face ≠ 1 →
        dislocation_neighbours s face fM bM = none) := by
  refine ⟨?_, ?_, ?_⟩
  · intro h
    subst h
    unfold dislocation_neighbours
    rw [if_pos rfl]
    refine congrArg some ?_
    funext p
    rw [periodic_add, periodic_add]
    simp only [List.countP_cons, List.countP_nil, decide_eq_true_eq]
    split_ifs <;> omega
  · intro h
    subst h
    unfold dislocation_neighbours
    rw [if_neg (by omega), if_pos rfl]
    refine congrArg some ?_
    funext p
    rw [periodic_add, periodic_add]
    simp only [List.countP_cons, List.countP_nil, decide_eq_true_eq]
    split_ifs <;> omega
  · intro h0 h1
    unfold dislocation_neighbours
    rw [if_neg h0, if_neg h1]

/-- Witness for C4: the `face = 0` clause on a 2×2 all-ones surface with
all-ones offset matrices. -/
theorem dislocation_neighbours_spec_witness :
    dislocation_neighbours (init_crystal 2) 0 (init_crystal 2)
        (init_crystal 2) = some (fun p =>
      1 + List.countP (fun h => decide (init_crystal 2 p ≤ h))
            [periodic (init_crystal 2) ((p.1 : ℤ) + 1) (p.2 : ℤ)
               + periodic (init_crystal 2) ((p.1 : ℤ) + 1) (p.2 : ℤ),
             periodic (init_crystal 2) (p.1 : ℤ) ((p.2 : ℤ) + 1),
             periodic (init_crystal 2) ((p.1 : ℤ) - 1) (p.2 : ℤ)
               + periodic (init_crystal 2) ((p.1 : ℤ) - 1) (p.2 : ℤ),
             periodic (init_crystal 2) (p.1 : ℤ) ((p.2 : ℤ) - 1)]) :=
  (dislocation_neighbours_spec 2 (init_crystal 2) 0 (init_crystal 2)
    (init_crystal 2)).1 rfl

end MonteCarloCrystal
